import Mathlib

/-!
Verification of the serial-task library: a shallow embedding of the two
iteration engines (`src/serial-task-sync.ts`, `src/serial-task-async.ts`),
the configuration normalizer (`common.ts`) and the promise-settling helper
(`promise-try.ts`), together with theorems settling the specification's
claims about them.

Modelling conventions:
* JS values are drawn from an arbitrary type `V`; the JS value `undefined`
  is a distinguished element `undef : V` passed where it matters.
* A JS function call either returns a value or throws; both engines let
  failures escape, so calls are modelled in `Except E`.
* In the asynchronous engine a call may also return a *thenable*; the
  outcome of such a call lives in `JSRes E β` (a plain value or a future
  that settles to `Except E β`), and `PromiseTry` settles it exactly as
  the source helper does.
* Hooks receive the live task array and may mutate (grow) it; this is
  modelled by the hook returning the new task list next to its value.
  Because a growing list can make the loop run forever, the loop takes
  fuel and returns `none` when the fuel runs out.
* JS arrays with holes (`new Array(n)`, skipped slots) are modelled as
  `List (Option V)`, a hole being `none`.
-/

namespace SerialTask

/-- A synchronous task (`Fn` applied via `task.apply(null, input)` in
`serial-task-sync.ts`): takes the spread argument list, returns a value or
throws. -/
abbrev STask (V E : Type) := List V → Except E V

/-- Shape of a hook as the generic loop consumes it: the hook receives
`(task, index, tasks, args, lastReturn)` and either throws or returns its
value together with the (possibly grown) task array. -/
abbrev HookFn (T V E β : Type) := T → Nat → List T → List V → V → Except E (β × List T)

/-- The per-invocation mutable state of the loop in either engine:
cursor `i`, the live task array, `last`, the `results` array (with holes)
and the `skipped` index list. -/
structure LoopState (T V : Type) where
  i : Nat
  tasks : List T
  last : V
  results : List (Option V)
  skipped : List Nat

/-- The `TaskReturn` record of `global.d.ts`: `value` is the last result
(`undefined` when no task ran), `results` the per-index slots, `breakAt`
is `-1` or the breaking index, `skipped` the skipped indices. -/
structure TaskRet (V : Type) where
  value : V
  results : List (Option V)
  trivial : Bool
  breakAt : Int
  skipped : List Nat
deriving DecidableEq

/-- JS array assignment `results[i] = v`: sets the slot in range, or pads
with holes and appends when `i` is past the end (arrays auto-grow). -/
def setSlot {V : Type} (rs : List (Option V)) (i : Nat) (v : V) : List (Option V) :=
  if i < rs.length then rs.set i (some v)
  else rs ++ List.replicate (i - rs.length) none ++ [some v]

/-- One iteration of the shared loop body (`serial-task-sync.ts` lines
47-66 / `serial-task-async.ts` lines 47-66, the engines differing only in
how a call is settled, which is factored into `exec` and the hook
arguments).  The guard `i < tasks.length` re-reads the live array and is
expressed as the lookup `tasks[i]?` succeeding.  Order per index: wrap,
break (stop before running the task), skip (record and continue), run the
task and store its result. -/
def loopStep {T V E : Type} (exec : T → List V → Except E V)
    (rw : HookFn T V E (List V)) (bc sc : HookFn T V E Bool)
    (args : List V) (s : LoopState T V) :
    Except E (LoopState T V ⊕ TaskRet V) :=
  match s.tasks[s.i]? with
  | none => .ok (.inr ⟨s.last, s.results, false, -1, s.skipped⟩)
  | some task =>
    match rw task s.i s.tasks args s.last with
    | .error e => .error e
    | .ok (input, ts1) =>
      match bc task s.i ts1 args s.last with
      | .error e => .error e
      | .ok (toBreak, ts2) =>
        if toBreak then .ok (.inr ⟨s.last, s.results, false, (s.i : Int), s.skipped⟩)
        else
          match sc task s.i ts2 args s.last with
          | .error e => .error e
          | .ok (toSkip, ts3) =>
            if toSkip then .ok (.inl ⟨s.i + 1, ts3, s.last, s.results, s.skipped ++ [s.i]⟩)
            else
              match exec task input with
              | .error e => .error e
              | .ok v => .ok (.inl ⟨s.i + 1, ts3, v, setSlot s.results s.i v, s.skipped⟩)

/-- The fuelled loop: iterates `loopStep` until the record is produced, a
failure escapes, or the fuel runs out (`none`, the case of a loop kept
alive forever by hooks growing the list). -/
def loopRun {T V E : Type} (exec : T → List V → Except E V)
    (rw : HookFn T V E (List V)) (bc sc : HookFn T V E Bool)
    (args : List V) : Nat → LoopState T V → Option (Except E (TaskRet V))
  | 0, _ => none
  | fuel + 1, s =>
    match loopStep exec rw bc sc args s with
    | .error e => some (.error e)
    | .ok (.inr r) => some (.ok r)
    | .ok (.inl s2) => loopRun exec rw bc sc args fuel s2

/-- The normalized configuration (`StrictSerialTaskOptions`): all hooks
present. -/
structure StrictOptions (V E : Type) where
  name : String
  tasks : List (STask V E)
  breakCondition : HookFn (STask V E) V E Bool
  skipCondition : HookFn (STask V E) V E Bool
  resultWrapper : HookFn (STask V E) V E (List V)

/-- `DEFAULT_BREAKER` of `common.ts`: `() => false` (ignores everything,
leaves the task array alone, never throws). -/
def DEFAULT_BREAKER {T V E : Type} : HookFn T V E Bool := fun _ _ ts _ _ => .ok (false, ts)

/-- `DEFAULT_SKIPPER` of `common.ts`: the very same function value as
`DEFAULT_BREAKER`. -/
def DEFAULT_SKIPPER {T V E : Type} : HookFn T V E Bool := DEFAULT_BREAKER

/-- `DEFAULT_RESULT_WRAPPER` of `common.ts`: at index 0 returns `args`
unchanged, at any other index wraps `lastReturn` in a one-element list. -/
def DEFAULT_RESULT_WRAPPER {T V E : Type} : HookFn T V E (List V) :=
  fun _ i ts args lastReturn => .ok ((if i = 0 then args else [lastReturn]), ts)

/-- The callable produced by `createSerialTask` (`serial-task-sync.ts`):
`o` is the normalized configuration captured at build time; `curTasks` is
the content of the shared task array at call time (the closure holds the
array by reference, so external code may have changed it between build
and call); `args` the call arguments; `fuel` bounds the iterations.  The
empty-list fast path (lines 25-36) is decided from the build-time
`o.tasks` and never touches hooks or arguments; the non-empty path runs
the loop over the live array, `results` sized to the call-time length. -/
def createSerialTask {V E : Type} (undef : V) (o : StrictOptions V E)
    (curTasks : List (STask V E)) (args : List V) (fuel : Nat) :
    Option (Except E (TaskRet V)) :=
  if o.tasks.length = 0 then some (.ok ⟨undef, [], true, -1, []⟩)
  else
    loopRun (fun t xs => t xs) o.resultWrapper o.breakCondition o.skipCondition args fuel
      ⟨0, curTasks, undef, List.replicate curTasks.length none, []⟩

/-- Outcome of calling a JS function in the asynchronous engine before
settling: it returned a plain value, or it returned a thenable that
settles to `p`. -/
inductive JSRes (E V : Type) where
  | val (v : V)
  | thenable (p : Except E V)

/-- An asynchronous task: may throw synchronously (`Except.error`), return
a plain value, or return a thenable. -/
abbrev ATask (V E : Type) := List V → Except E (JSRes E V)

/-- An asynchronous hook, same argument convention as `HookFn` but with
the `JSRes` result channel. -/
abbrev AHookFn (V E β : Type) :=
  ATask V E → Nat → List (ATask V E) → List V → V → Except E (JSRes E (β × List (ATask V E)))

/-- `PromiseTry` of `promise-try.ts`, applied to the outcome of the call
it wraps: a synchronous throw becomes a rejection, a plain value an
immediately-resolved value, and a thenable is awaited as is. -/
def PromiseTry {E β : Type} : Except E (JSRes E β) → Except E β
  | .error e => .error e
  | .ok (.val v) => .ok v
  | .ok (.thenable p) => p

/-- `PromiseTrapply` of `promise-try.ts`: identical body to `PromiseTry`
(the source duplicates it for the array-argument calling convention). -/
def PromiseTrapply {E β : Type} : Except E (JSRes E β) → Except E β
  | .error e => .error e
  | .ok (.val v) => .ok v
  | .ok (.thenable p) => p

/-- The normalized configuration as the asynchronous engine consumes it. -/
structure AStrictOptions (V E : Type) where
  name : String
  tasks : List (ATask V E)
  breakCondition : AHookFn V E Bool
  skipCondition : AHookFn V E Bool
  resultWrapper : AHookFn V E (List V)

/-- `DEFAULT_BREAKER` as seen through the asynchronous call channel:
`() => false` returns the plain value `false` and never throws. -/
def DEFAULT_BREAKER_ASYNC {V E : Type} : AHookFn V E Bool :=
  fun _ _ ts _ _ => .ok (.val (false, ts))

/-- `DEFAULT_SKIPPER` seen through the asynchronous call channel: the same
function value as `DEFAULT_BREAKER_ASYNC`. -/
def DEFAULT_SKIPPER_ASYNC {V E : Type} : AHookFn V E Bool := DEFAULT_BREAKER_ASYNC

/-- `DEFAULT_RESULT_WRAPPER` seen through the asynchronous call channel. -/
def DEFAULT_RESULT_WRAPPER_ASYNC {V E : Type} : AHookFn V E (List V) :=
  fun _ i ts args lastReturn => .ok (.val ((if i = 0 then args else [lastReturn]), ts))

/-- The callable produced by `createSerialTaskAsync`
(`serial-task-async.ts`): same two paths as the synchronous engine; in the
loop every hook call is settled through `PromiseTry` and every task call
through `PromiseTrapply` before the next step runs, so the whole
invocation is the same sequential loop with the settled values. -/
def createSerialTaskAsync {V E : Type} (undef : V) (o : AStrictOptions V E)
    (curTasks : List (ATask V E)) (args : List V) (fuel : Nat) :
    Option (Except E (TaskRet V)) :=
  if o.tasks.length = 0 then some (.ok ⟨undef, [], true, -1, []⟩)
  else
    loopRun (fun t xs => PromiseTrapply (t xs))
      (fun t i ts a l => PromiseTry (o.resultWrapper t i ts a l))
      (fun t i ts a l => PromiseTry (o.breakCondition t i ts a l))
      (fun t i ts a l => PromiseTry (o.skipCondition t i ts a l))
      args fuel ⟨0, curTasks, undef, List.replicate curTasks.length none, []⟩

/-- A field of the raw options object as the normalizer's type checks see
it: `undef` (absent, or present as `undefined`, so the destructuring
default applies), `bad` (present with a value of the wrong type), or
`val a` (present with a well-typed value). -/
inductive JSField (α : Type) where
  | undef
  | bad
  | val (a : α)
deriving DecidableEq

/-- The raw `SerialTaskOptions` object handed to `normalize`, field by
field.  A `tasks` element that is not a function is `none`. -/
structure RawOptions (V E : Type) where
  name : JSField String
  tasks : JSField (List (Option (STask V E)))
  breakCondition : JSField (HookFn (STask V E) V E Bool)
  skipCondition : JSField (HookFn (STask V E) V E Bool)
  resultWrapper : JSField (HookFn (STask V E) V E (List V))

/-- The arbitrary value passed to `normalize`: either not a non-null
object at all, or an object with the five recognised fields. -/
inductive RawInput (V E : Type) where
  | notObject
  | obj (o : RawOptions V E)

/-- JS destructuring default `field = d`: applies exactly when the
property is absent or `undefined`. -/
def withDefault {α : Type} (d : α) : JSField α → JSField α
  | .undef => .val d
  | f => f

/-- `normalize` of `common.ts` lines 23-63: rejects a non-object input,
applies the destructuring defaults, then checks `name`, `tasks` and the
three hooks in source order, and returns the strict options (the task
array itself, not a copy). -/
def normalize {V E : Type} (r : RawInput V E) : Except String (StrictOptions V E) :=
  match r with
  | .notObject => .error "options must be an object"
  | .obj o =>
    match withDefault "kskbTask" o.name with
    | .val nm =>
      match o.tasks with
      | .val l =>
        if l.all Option.isSome then
          match withDefault DEFAULT_BREAKER o.breakCondition with
          | .val bc =>
            match withDefault DEFAULT_SKIPPER o.skipCondition with
            | .val sc =>
              match withDefault DEFAULT_RESULT_WRAPPER o.resultWrapper with
              | .val rw => .ok ⟨nm, l.reduceOption, bc, sc, rw⟩
              | _ => .error "resultWrapper must be a function or omitted"
            | _ => .error "skipCondition must be a function or omitted"
          | _ => .error "breakCondition must be a function or omitted"
        else .error "tasks must be a function array"
      | _ => .error "tasks must be a function array"
    | _ => .error "name must be a string or omitted"

/-- The `tasks` field passes `normalize`'s check: it is an array and every
element is a function. -/
def tasksValid {α : Type} : JSField (List (Option α)) → Prop
  | .val l => l.all Option.isSome = true
  | _ => False

/-- The inputs `normalize` rejects, as the specification enumerates them:
not a non-null object; `name` present but not a string; `tasks` not an
array of functions; one of the hooks present but not a function. -/
def invalidRaw {V E : Type} : RawInput V E → Prop
  | .notObject => True
  | .obj o =>
    o.name = .bad ∨ ¬ tasksValid o.tasks ∨ o.breakCondition = .bad
      ∨ o.skipCondition = .bad ∨ o.resultWrapper = .bad

/-! Specification-side helpers used to state the claims. -/

/-- View a total function as a synchronous task that never throws. -/
def liftTotal {V E : Type} (f : List V → V) : STask V E := fun xs => .ok (f xs)

/-- View a total function as an asynchronous task that returns a plain
value (never throws, never returns a thenable). -/
def liftTotalAsync {V E : Type} (f : List V → V) : ATask V E := fun xs => .ok (.val (f xs))

/-- The outputs of running total tasks in sequence under the default
result wrapper, the first from `cur`, each next one from the one-element
list wrapping the previous output. -/
def chainFrom {V : Type} (cur : List V) : List (List V → V) → List V
  | [] => []
  | f :: fs => f cur :: chainFrom [f cur] fs

/-- Write consecutive values into the results array starting at slot
`i`. -/
def writeFrom {V : Type} (rs : List (Option V)) (i : Nat) : List V → List (Option V)
  | [] => rs
  | v :: vs => writeFrom (setSlot rs i v) (i + 1) vs

/-- The argument list the default result wrapper yields at index `i`. -/
def wrapIn {V : Type} (args : List V) (i : Nat) (lastReturn : V) : List V :=
  if i = 0 then args else [lastReturn]

/-- Slot `j` of the results array is unset: out of range, or a hole. -/
def slotUnset {V : Type} (rs : List (Option V)) (j : Nat) : Prop :=
  (rs[j]?).getD none = none

/-! Lifting a purely synchronous configuration into the asynchronous
engine (claim C7): the same plain functions, which in the asynchronous
call channel return plain (non-thenable) values. -/

/-- A synchronous task run through the asynchronous call channel: its
value comes back as a plain value, its throw as a synchronous throw. -/
def liftTask {V E : Type} (t : STask V E) : ATask V E := fun xs => (t xs).map JSRes.val

/-- The behaviour of an asynchronous task as a synchronous one: call and
settle.  On tasks of the form `liftTask t` this recovers `t`. -/
def unliftTask {V E : Type} (t : ATask V E) : STask V E := fun xs => PromiseTrapply (t xs)

/-- A synchronous hook run through the asynchronous call channel: it sees
the same task array (the lifted tasks settle back to the original ones)
and returns a plain value. -/
def liftHook {V E β : Type} (h : HookFn (STask V E) V E β) : AHookFn V E β :=
  fun t i ts a l =>
    match h (unliftTask t) i (ts.map unliftTask) a l with
    | .error e => .error e
    | .ok (b, ts2) => .ok (.val (b, ts2.map liftTask))

/-- A purely synchronous configuration, as the asynchronous engine
receives it. -/
def liftOptions {V E : Type} (o : StrictOptions V E) : AStrictOptions V E :=
  ⟨o.name, o.tasks.map liftTask, liftHook o.breakCondition, liftHook o.skipCondition,
    liftHook o.resultWrapper⟩

/-- Structural invariant of a returned record (claim C10): `skipped` is
strictly increasing; every skipped slot of `results` is unset; and when
`breakAt ≥ 0` it lies strictly above every skipped index while every
in-range slot from `breakAt` on is a hole. -/
def RetInv {V : Type} (r : TaskRet V) : Prop :=
  List.Pairwise (· < ·) r.skipped
    ∧ (∀ m ∈ r.skipped, slotUnset r.results m)
    ∧ (0 ≤ r.breakAt →
        (∀ m ∈ r.skipped, (m : Int) < r.breakAt)
          ∧ (∀ j : Nat, j < r.results.length → r.breakAt ≤ (j : Int)
              → r.results[j]? = some none))

/-- Invariant of the loop state from which `RetInv` follows: `skipped` is
increasing and entirely below the cursor, skipped slots are unset, and so
is every slot at or above the cursor. -/
def StateInv {T V : Type} (s : LoopState T V) : Prop :=
  List.Pairwise (· < ·) s.skipped
    ∧ (∀ m ∈ s.skipped, m < s.i)
    ∧ (∀ m ∈ s.skipped, slotUnset s.results m)
    ∧ (∀ j, s.i ≤ j → slotUnset s.results j)

/-! Auxiliary list lemmas. -/

theorem getLastD_cons_eq {V : Type} (a b : V) (l : List V) :
    (a :: l).getLastD b = l.getLastD a := by
  cases l <;> simp [List.getLastD]

theorem chainFrom_length {V : Type} (cur : List V) (fs : List (List V → V)) :
    (chainFrom cur fs).length = fs.length := by
  induction fs generalizing cur with
  | nil => rfl
  | cons f fs ih => simp [chainFrom, ih]

theorem getElem?_append_mid {α : Type} (A : List α) (c : α) (D : List α) :
    (A ++ c :: D)[A.length]? = some c := by
  rw [List.getElem?_append_right (Nat.le_refl _)]
  simp

theorem set_append_mid {α : Type} (pre : List α) (a v : α) (rest : List α) :
    (pre ++ a :: rest).set pre.length v = pre ++ v :: rest := by
  induction pre with
  | nil => rfl
  | cons x xs ih => simp [List.set, ih]

theorem setSlot_mid {V : Type} (pre : List (Option V)) (a : Option V)
    (rest : List (Option V)) (v : V) :
    setSlot (pre ++ a :: rest) pre.length v = pre ++ some v :: rest := by
  unfold setSlot
  rw [if_pos (by simp)]
  exact set_append_mid pre a (some v) rest

theorem setSlot_at_end {V : Type} (pre : List (Option V)) (v : V) :
    setSlot pre pre.length v = pre ++ [some v] := by
  unfold setSlot
  rw [if_neg (by omega)]
  simp

theorem writeFrom_append_replicate {V : Type} (l : List V) :
    ∀ (pre : List (Option V)) (m : Nat),
      writeFrom (pre ++ List.replicate m none) pre.length l
        = pre ++ l.map some ++ List.replicate (m - l.length) none := by
  induction l with
  | nil => intro pre m; simp [writeFrom]
  | cons v vs ih =>
    intro pre m
    cases m with
    | zero =>
      have h1 := ih (pre ++ [some v]) 0
      simp only [List.replicate, List.append_nil] at h1 ⊢
      rw [writeFrom, setSlot_at_end]
      rw [show pre.length + 1 = (pre ++ [some v]).length by simp]
      rw [h1]
      simp
    | succ m' =>
      have h1 := ih (pre ++ [some v]) m'
      simp only [List.replicate] at h1 ⊢
      rw [writeFrom, setSlot_mid]
      rw [show pre ++ some v :: List.replicate m' none
            = (pre ++ [some v]) ++ List.replicate m' none by simp]
      rw [show pre.length + 1 = (pre ++ [some v]).length by simp]
      rw [h1]
      simp

/-- Running the loop across a stretch of indices on which the result
wrapper behaves like the default, both conditions answer `false` without
mutating the list, and the tasks succeed like the total functions `segF`:
the loop executes every task of the stretch in order, threading `last`
and filling `results`, and arrives at the far end of the stretch. -/
theorem loopRun_segment {T V E : Type} (exec : T → List V → Except E V)
    (rwf : HookFn T V E (List V)) (bc sc : HookFn T V E Bool) (args : List V) :
    ∀ (segT : List T) (segF : List (List V → V)),
      List.Forall₂ (fun t f => ∀ xs, exec t xs = .ok (f xs)) segT segF →
      ∀ (A B : List T) (fuel : Nat) (lst : V) (rs : List (Option V)) (sk : List Nat),
      (∀ t m ts a l, A.length ≤ m → m < A.length + segT.length →
          rwf t m ts a l = .ok (wrapIn a m l, ts)) →
      (∀ t m ts a l, A.length ≤ m → m < A.length + segT.length →
          bc t m ts a l = .ok (false, ts)) →
      (∀ t m ts a l, A.length ≤ m → m < A.length + segT.length →
          sc t m ts a l = .ok (false, ts)) →
      loopRun exec rwf bc sc args fuel ⟨A.length, A ++ segT ++ B, lst, rs, sk⟩
        = loopRun exec rwf bc sc args (fuel - segT.length)
            ⟨A.length + segT.length, A ++ segT ++ B,
             (chainFrom (wrapIn args A.length lst) segF).getLastD lst,
             writeFrom rs A.length (chainFrom (wrapIn args A.length lst) segF), sk⟩ := by
  intro segT segF hseg
  induction hseg with
  | nil =>
    intro A B fuel lst rs sk _ _ _
    simp [chainFrom, writeFrom, List.getLastD]
  | @cons t f tT fT h1 h2 ih =>
    intro A B fuel lst rs sk hrw hbc hsc
    cases fuel with
    | zero => simp [loopRun, Nat.zero_sub]
    | succ n =>
      have hguard : (A ++ (t :: tT) ++ B)[A.length]? = some t := by
        rw [List.append_assoc]
        exact getElem?_append_mid A t (tT ++ B)
      have hstep : loopStep exec rwf bc sc args
            ⟨A.length, A ++ (t :: tT) ++ B, lst, rs, sk⟩
          = .ok (.inl ⟨A.length + 1, A ++ (t :: tT) ++ B,
              f (wrapIn args A.length lst),
              setSlot rs A.length (f (wrapIn args A.length lst)), sk⟩) := by
        have e1 := hrw t A.length (A ++ (t :: tT) ++ B) args lst (Nat.le_refl _) (by simp)
        have e2 := hbc t A.length (A ++ (t :: tT) ++ B) args lst (Nat.le_refl _) (by simp)
        have e3 := hsc t A.length (A ++ (t :: tT) ++ B) args lst (Nat.le_refl _) (by simp)
        have e4 := h1 (wrapIn args A.length lst)
        simp only [loopStep, hguard, e1, e2, e3, e4, Bool.false_eq_true, if_false]
      rw [loopRun, hstep]
      simp only
      have hL : A ++ (t :: tT) ++ B = (A ++ [t]) ++ tT ++ B := by simp
      have hA : A.length + 1 = (A ++ [t]).length := by simp
      rw [hL, hA]
      rw [ih (A ++ [t]) B n (f (wrapIn args A.length lst))
        (setSlot rs A.length (f (wrapIn args A.length lst))) sk
        (by intro t' m ts a l hm1 hm2; exact hrw t' m ts a l (by simp at hm1 ⊢; omega)
              (by simp at hm2 ⊢; omega))
        (by intro t' m ts a l hm1 hm2; exact hbc t' m ts a l (by simp at hm1 ⊢; omega)
              (by simp at hm2 ⊢; omega))
        (by intro t' m ts a l hm1 hm2; exact hsc t' m ts a l (by simp at hm1 ⊢; omega)
              (by simp at hm2 ⊢; omega))]
      have hfuel : n - tT.length = (n + 1) - (tT.length + 1) := by omega
      have hwrap : wrapIn args (A ++ [t]).length (f (wrapIn args A.length lst))
          = [f (wrapIn args A.length lst)] := by
        unfold wrapIn
        rw [if_neg (by simp)]
      rw [hwrap, hfuel]
      have hchain : chainFrom (wrapIn args A.length lst) (f :: fT)
          = f (wrapIn args A.length lst) :: chainFrom [f (wrapIn args A.length lst)] fT := rfl
      have hval : (chainFrom (wrapIn args A.length lst) (f :: fT)).getLastD lst
          = (chainFrom [f (wrapIn args A.length lst)] fT).getLastD
              (f (wrapIn args A.length lst)) := by
        rw [hchain, getLastD_cons_eq]
      have hres : writeFrom rs A.length (chainFrom (wrapIn args A.length lst) (f :: fT))
          = writeFrom (setSlot rs A.length (f (wrapIn args A.length lst))) (A.length + 1)
              (chainFrom [f (wrapIn args A.length lst)] fT) := by
        rw [hchain, writeFrom]
      rw [hval, hres, hA]
      have hi : (A ++ [t]).length + tT.length = A.length + (tT.length + 1) := by
        simp
        omega
      rw [hi]
      simp

/-- With at least one unit of fuel left, the loop ends and returns the
record as soon as the cursor has passed the end of the live task array. -/
theorem loopRun_done {T V E : Type} (exec : T → List V → Except E V)
    (rwf : HookFn T V E (List V)) (bc sc : HookFn T V E Bool) (args : List V)
    (fuel : Nat) (s : LoopState T V) (h : s.tasks[s.i]? = none) :
    loopRun exec rwf bc sc args (fuel + 1) s
      = some (.ok ⟨s.last, s.results, false, -1, s.skipped⟩) := by
  rw [loopRun]
  simp [loopStep, h]

/-- Lifted total functions, as the synchronous engine executes tasks. -/
theorem forall₂_liftTotal {V E : Type} (fs : List (List V → V)) :
    List.Forall₂ (fun (t : STask V E) (f : List V → V) => ∀ xs, t xs = .ok (f xs))
      (fs.map liftTotal) fs := by
  induction fs with
  | nil => exact .nil
  | cons f fs ih => exact .cons (fun xs => rfl) ih

/-- Lifted total functions, as the asynchronous engine settles tasks. -/
theorem forall₂_liftTotalAsync {V E : Type} (fs : List (List V → V)) :
    List.Forall₂
      (fun (t : ATask V E) (f : List V → V) => ∀ xs, PromiseTrapply (t xs) = .ok (f xs))
      (fs.map liftTotalAsync) fs := by
  induction fs with
  | nil => exact .nil
  | cons f fs ih => exact .cons (fun xs => rfl) ih

theorem default_rw_eq {T V E : Type} :
    ∀ (t : T) (m : Nat) (ts : List T) (a : List V) (l : V),
      DEFAULT_RESULT_WRAPPER (E := E) t m ts a l = .ok (wrapIn a m l, ts) :=
  fun _ _ _ _ _ => rfl

theorem default_bc_eq {T V E : Type} :
    ∀ (t : T) (m : Nat) (ts : List T) (a : List V) (l : V),
      DEFAULT_BREAKER (E := E) t m ts a l = .ok (false, ts) :=
  fun _ _ _ _ _ => rfl

theorem default_sc_eq {T V E : Type} :
    ∀ (t : T) (m : Nat) (ts : List T) (a : List V) (l : V),
      DEFAULT_SKIPPER (E := E) t m ts a l = .ok (false, ts) :=
  fun _ _ _ _ _ => rfl

theorem getElem?_length_sub_one {α : Type} (l : List α) (d : α) (h : l ≠ []) :
    l[l.length - 1]? = some (l.getLastD d) := by
  induction l generalizing d with
  | nil => simp at h
  | cons a t ih =>
    cases t with
    | nil => simp [List.getLastD]
    | cons b t2 =>
      rw [getLastD_cons_eq]
      have h2 := ih (d := a) (by simp)
      simp only [List.length_cons] at h2 ⊢
      rw [show t2.length + 1 + 1 - 1 = t2.length + 1 by omega]
      rw [List.getElem?_cons_succ]
      rw [show t2.length + 1 - 1 = t2.length by omega] at h2
      exact h2

/-- C1: for a configuration with a non-empty task list and all three
hooks at their defaults, an invocation returns the record whose `value`
is the left-to-right fold of the tasks from the call arguments (task 0 on
`args`, each later task on the one-element list wrapping the previous
result), whose `results[i]` is the output of task `i` for every `i`,
with `breakAt = -1` and `skipped` empty. -/
theorem claim1_defaults_fold {V E : Type} (undef : V) (nm : String)
    (h0 : List V → V) (tl : List (List V → V)) (args : List V) (fuel : Nat)
    (hfuel : tl.length + 2 ≤ fuel) :
    createSerialTask undef
        ⟨nm, (h0 :: tl).map (liftTotal (E := E)), DEFAULT_BREAKER, DEFAULT_SKIPPER,
          DEFAULT_RESULT_WRAPPER⟩
        ((h0 :: tl).map liftTotal) args fuel
      = some (.ok ⟨(chainFrom args (h0 :: tl)).getLastD undef,
          (chainFrom args (h0 :: tl)).map some, false, -1, []⟩) := by
  rw [createSerialTask, if_neg (by simp)]
  simp only [List.length_map, List.length_cons]
  have hseg := loopRun_segment (fun (t : STask V E) xs => t xs) DEFAULT_RESULT_WRAPPER
    DEFAULT_BREAKER DEFAULT_SKIPPER args ((h0 :: tl).map liftTotal) (h0 :: tl)
    (forall₂_liftTotal _) [] [] fuel undef
    (List.replicate ((h0 :: tl).map (liftTotal (E := E))).length none) []
    (fun _ _ _ _ _ _ _ => rfl) (fun _ _ _ _ _ _ _ => rfl) (fun _ _ _ _ _ _ _ => rfl)
  simp only [List.nil_append, List.append_nil, List.length_nil, Nat.zero_add,
    List.length_map, List.length_cons] at hseg
  rw [hseg]
  have hwrap : wrapIn args 0 undef = args := rfl
  rw [hwrap]
  obtain ⟨k, hk⟩ : ∃ k, fuel - (tl.length + 1) = k + 1 := ⟨fuel - tl.length - 2, by omega⟩
  rw [hk]
  rw [loopRun_done]
  · have hres : writeFrom (List.replicate (tl.length + 1) none) 0 (chainFrom args (h0 :: tl))
        = (chainFrom args (h0 :: tl)).map some := by
      have h1 := writeFrom_append_replicate (chainFrom args (h0 :: tl))
        ([] : List (Option V)) (tl.length + 1)
      simp only [List.nil_append, List.length_nil] at h1
      rw [h1, chainFrom_length]
      simp
    rw [hres]
  · simp

/-- Witness for C1 at the concrete scenario of the specification:
tasks `[x + 1, x * 2, x - 1]` called with `5`. -/
theorem claim1_defaults_fold_witness :
    createSerialTask (V := Nat) (E := Unit) 0
        ⟨"kskbTask",
          [fun xs => xs.headD 0 + 1, fun xs => xs.headD 0 * 2,
            fun xs => xs.headD 0 - 1].map liftTotal,
          DEFAULT_BREAKER, DEFAULT_SKIPPER, DEFAULT_RESULT_WRAPPER⟩
        ([fun xs => xs.headD 0 + 1, fun xs => xs.headD 0 * 2,
            fun xs => xs.headD 0 - 1].map liftTotal) [5] 5
      = some (.ok ⟨11, [some 6, some 12, some 11], false, -1, []⟩) :=
  claim1_defaults_fold 0 "kskbTask" (fun xs => xs.headD 0 + 1)
    [fun xs => xs.headD 0 * 2, fun xs => xs.headD 0 - 1] [5] 5 (by simp)

/-- C2: if `breakCondition` answers true at index `k = front.length` and
false at every earlier index (skip defaulted below `k`), the invocation
returns `breakAt = k`, leaves `results[j]` unset for every `j ≥ k`, keeps
`skipped` empty, and `value` is the content of `results[k-1]` (the unset
sentinel when `k = 0`).  The tasks at indices `≥ k` and the behaviour of
both conditions at indices `> k` are universally quantified, so the
record does not depend on them: task `k` is never run and no index past
`k` is visited. -/
theorem claim2_break_at_k {V E : Type} (undef : V) (nm : String)
    (front : List (List V → V)) (r0 : STask V E) (rest : List (STask V E))
    (bc sc : HookFn (STask V E) V E Bool) (args : List V) (fuel : Nat)
    (hfuel : front.length + 2 ≤ fuel)
    (hblt : ∀ t m ts a l, m < front.length → bc t m ts a l = .ok (false, ts))
    (hbk : ∀ t ts a l, bc t front.length ts a l = .ok (true, ts))
    (hslt : ∀ t m ts a l, m < front.length → sc t m ts a l = .ok (false, ts)) :
    createSerialTask undef
        ⟨nm, front.map liftTotal ++ r0 :: rest, bc, sc, DEFAULT_RESULT_WRAPPER⟩
        (front.map liftTotal ++ r0 :: rest) args fuel
      = some (.ok ⟨(chainFrom args front).getLastD undef,
          (chainFrom args front).map some ++ List.replicate (rest.length + 1) none,
          false, (front.length : Int), []⟩)
      ∧ (front = [] → (chainFrom args front).getLastD undef = undef)
      ∧ (front ≠ [] →
          ((chainFrom args front).map some
              ++ List.replicate (rest.length + 1) none)[front.length - 1]?
            = some (some ((chainFrom args front).getLastD undef))) := by
  refine ⟨?_, ?_, ?_⟩
  · rw [createSerialTask, if_neg (by simp)]
    simp only [List.length_append, List.length_map, List.length_cons]
    have hseg := loopRun_segment (fun (t : STask V E) xs => t xs) DEFAULT_RESULT_WRAPPER
      bc sc args (front.map liftTotal) front (forall₂_liftTotal _) [] (r0 :: rest) fuel undef
      (List.replicate (front.length + (rest.length + 1)) none) []
      (fun t m ts a l _ _ => default_rw_eq t m ts a l)
      (fun t m ts a l _ hm2 => hblt t m ts a l (by simpa using hm2))
      (fun t m ts a l _ hm2 => hslt t m ts a l (by simpa using hm2))
    simp only [List.nil_append, List.length_nil, Nat.zero_add, List.length_map] at hseg
    rw [hseg]
    obtain ⟨k, hk⟩ : ∃ k, fuel - front.length = k + 1 := ⟨fuel - front.length - 1, by omega⟩
    rw [hk, loopRun]
    have hguard := getElem?_append_mid (front.map (liftTotal (E := E))) r0 rest
    simp only [List.length_map] at hguard
    simp only [loopStep, hguard, default_rw_eq]
    rw [hbk]
    simp only [if_pos]
    have hres := writeFrom_append_replicate (chainFrom (wrapIn args 0 undef) front)
      ([] : List (Option V)) (front.length + (rest.length + 1))
    simp only [List.nil_append, List.length_nil] at hres
    rw [hres, chainFrom_length]
    have hwrap : wrapIn args 0 undef = args := rfl
    rw [hwrap]
    simp [Nat.add_sub_cancel_left]
  · intro h
    subst h
    rfl
  · intro hne
    have hchne : chainFrom args front ≠ [] := by
      have hl := chainFrom_length args front
      intro hc
      rw [hc] at hl
      exact hne (List.eq_nil_of_length_eq_zero hl.symm)
    have hlt : front.length - 1 < (List.map some (chainFrom args front)).length := by
      simp only [List.length_map, chainFrom_length]
      have : front.length ≠ 0 := fun h => hne (List.eq_nil_of_length_eq_zero h)
      omega
    rw [List.getElem?_append, if_pos hlt]
    have := getElem?_length_sub_one (chainFrom args front) undef hchne
    rw [chainFrom_length] at this
    rw [List.getElem?_map, this]
    rfl

/-- Witness for C2 at the specification's scenario C: tasks
`[x + 1, x * 2]`, break exactly at index 1, call with `5`. -/
theorem claim2_break_at_k_witness :
    createSerialTask (V := Nat) (E := Unit) 0
        ⟨"kskbTask",
          [fun xs => xs.headD 0 + 1].map liftTotal
            ++ liftTotal (fun xs => xs.headD 0 * 2) :: [],
          (fun _ i ts _ _ => .ok (decide (1 ≤ i), ts)), DEFAULT_SKIPPER,
          DEFAULT_RESULT_WRAPPER⟩
        ([fun xs => xs.headD 0 + 1].map liftTotal
            ++ liftTotal (fun xs => xs.headD 0 * 2) :: []) [5] 3
      = some (.ok ⟨6, [some 6, none], false, 1, []⟩) :=
  (claim2_break_at_k 0 "kskbTask" [fun xs => xs.headD 0 + 1]
    (liftTotal (fun xs => xs.headD 0 * 2)) []
    (fun _ i ts _ _ => .ok (decide (1 ≤ i), ts)) DEFAULT_SKIPPER [5] 3 (by simp)
    (by
      intro t m ts a l hm
      have hm0 : m = 0 := by simpa using Nat.lt_one_iff.mp (by simpa using hm)
      subst hm0
      rfl)
    (fun _ _ _ _ => rfl)
    (fun t m ts a l _ => default_sc_eq t m ts a l)).1

/-- C3: with `breakCondition` defaulted and `skipCondition` true only at
index `k = pre.length`, the invocation returns `skipped = [k]`, leaves
`results[k]` unset, and the `last` value carried into index `k+1` (the
seed of the tail chain, fed to the hooks and the default wrapper there)
is the content of `results[k-1]` — the unset sentinel when `k = 0` — so
the skip leaves `last` unchanged. -/
theorem claim3_skip_only_k {V E : Type} (undef : V) (nm : String)
    (pre : List (List V → V)) (mid : List V → V) (post : List (List V → V))
    (sc : HookFn (STask V E) V E Bool) (args : List V) (fuel : Nat)
    (hfuel : pre.length + post.length + 3 ≤ fuel)
    (hsk : ∀ t ts a l, sc t pre.length ts a l = .ok (true, ts))
    (hsne : ∀ t m ts a l, m ≠ pre.length → sc t m ts a l = .ok (false, ts)) :
    createSerialTask undef
        ⟨nm, (pre ++ mid :: post).map (liftTotal (E := E)), DEFAULT_BREAKER, sc,
          DEFAULT_RESULT_WRAPPER⟩
        ((pre ++ mid :: post).map liftTotal) args fuel
      = some (.ok ⟨
          (chainFrom [(chainFrom args pre).getLastD undef] post).getLastD
            ((chainFrom args pre).getLastD undef),
          (chainFrom args pre).map some ++ none
            :: (chainFrom [(chainFrom args pre).getLastD undef] post).map some,
          false, -1, [pre.length]⟩) := by
  rw [createSerialTask, if_neg (by simp)]
  simp only [List.map_append, List.map_cons, List.length_append, List.length_map,
    List.length_cons]
  have hseg1 := loopRun_segment (fun (t : STask V E) xs => t xs) DEFAULT_RESULT_WRAPPER
    DEFAULT_BREAKER sc args (pre.map liftTotal) pre (forall₂_liftTotal _) []
    (liftTotal mid :: post.map liftTotal) fuel undef
    (List.replicate (pre.length + (post.length + 1)) none) []
    (fun t m ts a l _ _ => default_rw_eq t m ts a l)
    (fun t m ts a l _ _ => default_bc_eq t m ts a l)
    (fun t m ts a l _ hm2 => hsne t m ts a l (by simp at hm2; omega))
  simp only [List.nil_append, List.length_nil, Nat.zero_add, List.length_map] at hseg1
  rw [hseg1]
  obtain ⟨k1, hk1⟩ : ∃ k1, fuel - pre.length = k1 + 1 := ⟨fuel - pre.length - 1, by omega⟩
  rw [hk1, loopRun]
  have hguard := getElem?_append_mid (pre.map (liftTotal (E := E))) (liftTotal mid)
    (post.map liftTotal)
  simp only [List.length_map] at hguard
  simp only [loopStep, hguard, default_rw_eq, default_bc_eq, Bool.false_eq_true, if_false]
  rw [hsk]
  simp only [if_pos, List.nil_append]
  have hseg2 := loopRun_segment (fun (t : STask V E) xs => t xs) DEFAULT_RESULT_WRAPPER
    DEFAULT_BREAKER sc args (post.map liftTotal) post (forall₂_liftTotal _)
    (pre.map liftTotal ++ [liftTotal mid]) [] k1
    ((chainFrom (wrapIn args 0 undef) pre).getLastD undef)
    (writeFrom (List.replicate (pre.length + (post.length + 1)) none) 0
      (chainFrom (wrapIn args 0 undef) pre)) [pre.length]
    (fun t m ts a l _ _ => default_rw_eq t m ts a l)
    (fun t m ts a l _ _ => default_bc_eq t m ts a l)
    (fun t m ts a l hm1 _ => hsne t m ts a l (by simp at hm1; omega))
  simp only [List.length_append, List.length_map, List.length_cons, List.length_nil,
    Nat.add_zero, Nat.zero_add, List.append_nil, List.append_assoc,
    List.singleton_append] at hseg2
  rw [hseg2]
  obtain ⟨k2, hk2⟩ : ∃ k2, k1 - post.length = k2 + 1 := ⟨k1 - post.length - 1, by omega⟩
  rw [hk2, loopRun_done]
  · rw [show wrapIn args 0 undef = args from rfl]
    have hres1 := writeFrom_append_replicate (chainFrom args pre) ([] : List (Option V))
      (pre.length + (post.length + 1))
    simp only [List.nil_append, List.length_nil] at hres1
    rw [chainFrom_length] at hres1
    rw [show pre.length + (post.length + 1) - pre.length = post.length + 1 by omega] at hres1
    rw [hres1]
    rw [show wrapIn args (pre.length + 1) ((chainFrom args pre).getLastD undef)
        = [(chainFrom args pre).getLastD undef] from by unfold wrapIn; rw [if_neg (by omega)]]
    rw [show (List.replicate (post.length + 1) (none : Option V))
        = none :: List.replicate post.length none from rfl]
    rw [show List.map some (chainFrom args pre) ++ none :: List.replicate post.length none
        = (List.map some (chainFrom args pre) ++ [none]) ++ List.replicate post.length none
        by simp]
    rw [show pre.length + 1
        = (List.map some (chainFrom args pre) ++ [(none : Option V)]).length
        by simp [chainFrom_length]]
    rw [writeFrom_append_replicate]
    rw [chainFrom_length]
    simp
  · simp only [List.length_append, List.length_map, List.length_cons, List.length_nil]
    rw [List.getElem?_eq_none]
    simp
    omega

/-- Witness for C3 at the specification's scenario B: tasks
`[x + 1, x * 2, x - 1]`, skip exactly at index 1, call with `5`. -/
theorem claim3_skip_only_k_witness :
    createSerialTask (V := Nat) (E := Unit) 0
        ⟨"kskbTask",
          (([fun xs => xs.headD 0 + 1] : List (List Nat → Nat))
              ++ (fun xs => xs.headD 0 * 2)
              :: ([fun xs => xs.headD 0 - 1] : List (List Nat → Nat))).map liftTotal,
          DEFAULT_BREAKER, (fun _ i ts _ _ => .ok (decide (i = 1), ts)),
          DEFAULT_RESULT_WRAPPER⟩
        ((([fun xs => xs.headD 0 + 1] : List (List Nat → Nat))
              ++ (fun xs => xs.headD 0 * 2)
              :: ([fun xs => xs.headD 0 - 1] : List (List Nat → Nat))).map liftTotal) [5] 6
      = some (.ok ⟨5, [some 6, none, some 5], false, -1, [1]⟩) :=
  claim3_skip_only_k 0 "kskbTask" [fun xs => xs.headD 0 + 1] (fun xs => xs.headD 0 * 2)
    [fun xs => xs.headD 0 - 1] (fun _ i ts _ _ => .ok (decide (i = 1), ts)) [5] 6
    (by simp)
    (fun _ _ _ _ => rfl)
    (by
      intro t m ts a l hm
      simp only [List.length_cons, List.length_nil] at hm
      have hd : decide (m = 1) = false := by simpa using hm
      simp [hd])

/-- C5: the loop re-reads the live task list each iteration, so a task
appended by a hook at an index still ahead of the cursor is visited in
the same invocation: with a result wrapper that appends task `t` while
handling index 0 (and otherwise behaves like the default), an invocation
over build-time list `h0 :: tl` produces exactly the record of a default
run over `(h0 :: tl) ++ [t]` — the appended task is executed, its output
is stored at the new index and becomes the final `value`. -/
theorem claim5_appended_visited {V E : Type} (undef : V) (nm : String)
    (h0 : List V → V) (tl : List (List V → V)) (t : List V → V) (args : List V)
    (fuel : Nat) (hfuel : tl.length + 3 ≤ fuel) :
    createSerialTask undef
        ⟨nm, (h0 :: tl).map (liftTotal (E := E)), DEFAULT_BREAKER, DEFAULT_SKIPPER,
          (fun _ i ts a l =>
            .ok ((if i = 0 then a else [l]), if i = 0 then ts ++ [liftTotal t] else ts))⟩
        ((h0 :: tl).map liftTotal) args fuel
      = some (.ok ⟨(chainFrom args ((h0 :: tl) ++ [t])).getLastD undef,
          (chainFrom args ((h0 :: tl) ++ [t])).map some, false, -1, []⟩) := by
  rw [createSerialTask, if_neg (by simp)]
  simp only [List.length_map, List.length_cons]
  obtain ⟨k1, hk1⟩ : ∃ k1, fuel = k1 + 1 := ⟨fuel - 1, by omega⟩
  rw [hk1, loopRun]
  have hguard : ((h0 :: tl).map (liftTotal (E := E)))[0]? = some (liftTotal h0) := by simp
  simp only [loopStep, hguard, default_bc_eq, default_sc_eq, Bool.false_eq_true, if_false,
    if_pos, show liftTotal (E := E) h0 args = .ok (h0 args) from rfl]
  rw [show (List.replicate (tl.length + 1) (none : Option V))
      = none :: List.replicate tl.length none from rfl]
  rw [show setSlot (none :: List.replicate tl.length (none : Option V)) 0 (h0 args)
      = ([] : List (Option V)) ++ some (h0 args) :: List.replicate tl.length none from
    setSlot_mid [] none (List.replicate tl.length none) (h0 args)]
  simp only [List.nil_append]
  rw [show (h0 :: tl).map (liftTotal (E := E)) ++ [liftTotal t]
      = [liftTotal h0] ++ (tl ++ [t]).map liftTotal by simp]
  have hseg := loopRun_segment (fun (t' : STask V E) xs => t' xs)
    (fun _ i ts a l =>
      .ok ((if i = 0 then a else [l]), if i = 0 then ts ++ [liftTotal t] else ts))
    DEFAULT_BREAKER DEFAULT_SKIPPER args ((tl ++ [t]).map liftTotal) (tl ++ [t])
    (forall₂_liftTotal _) [liftTotal h0] [] k1 (h0 args)
    (some (h0 args) :: List.replicate tl.length none) []
    (by
      intro t' m ts a l hm1 _
      have hm : m ≠ 0 := by simp at hm1; omega
      simp [wrapIn, hm])
    (fun t' m ts a l _ _ => default_bc_eq t' m ts a l)
    (fun t' m ts a l _ _ => default_sc_eq t' m ts a l)
  simp only [List.length_cons, List.length_nil, List.length_append, List.length_map,
    Nat.zero_add, List.append_nil] at hseg
  simp only [Nat.zero_add]
  rw [hseg]
  obtain ⟨k2, hk2⟩ : ∃ k2, k1 - (tl.length + 1) = k2 + 1 := ⟨k1 - tl.length - 2, by omega⟩
  rw [hk2, loopRun_done]
  · rw [show wrapIn args 1 (h0 args) = [h0 args] from rfl]
    rw [show some (h0 args) :: List.replicate tl.length (none : Option V)
        = [some (h0 args)] ++ List.replicate tl.length none from rfl]
    rw [show (1 : Nat) = ([some (h0 args)] : List (Option V)).length from rfl]
    rw [writeFrom_append_replicate]
    rw [chainFrom_length]
    rw [show tl.length - (tl ++ [t]).length = 0 by simp]
    rw [show (h0 :: tl) ++ [t] = h0 :: (tl ++ [t]) by simp]
    rw [show chainFrom args (h0 :: (tl ++ [t]))
        = h0 args :: chainFrom [h0 args] (tl ++ [t]) from rfl]
    rw [getLastD_cons_eq]
    simp
  · simp only [List.length_cons, List.length_nil, List.length_append, List.length_map]
    rw [List.getElem?_eq_none]
    simp
    omega

/-- Witness for C5: build-time tasks `[x + 1, x * 2]`, wrapper appends
`x - 1` at index 0, call with `5`: the appended task runs and yields the
final value `11`. -/
theorem claim5_appended_visited_witness :
    createSerialTask (V := Nat) (E := Unit) 0
        ⟨"kskbTask",
          (([fun xs => xs.headD 0 + 1, fun xs => xs.headD 0 * 2]
              : List (List Nat → Nat))).map liftTotal,
          DEFAULT_BREAKER, DEFAULT_SKIPPER,
          (fun _ i ts a l =>
            .ok ((if i = 0 then a else [l]),
              if i = 0 then ts ++ [liftTotal (fun xs => xs.headD 0 - 1)] else ts))⟩
        ((([fun xs => xs.headD 0 + 1, fun xs => xs.headD 0 * 2]
            : List (List Nat → Nat))).map liftTotal) [5] 5
      = some (.ok ⟨11, [some 6, some 12, some 11], false, -1, []⟩) :=
  claim5_appended_visited 0 "kskbTask" (fun xs => xs.headD 0 + 1)
    [fun xs => xs.headD 0 * 2] (fun xs => xs.headD 0 - 1) [5] 5 (by simp)

/-- Every record the loop itself produces carries `trivial = false`. -/
theorem loopStep_inr_trivial {T V E : Type} (exec : T → List V → Except E V)
    (rwf : HookFn T V E (List V)) (bc sc : HookFn T V E Bool) (args : List V)
    (s : LoopState T V) (r : TaskRet V)
    (h : loopStep exec rwf bc sc args s = .ok (.inr r)) : r.trivial = false := by
  unfold loopStep at h
  repeat' split at h
  all_goals try (cases h; rfl)
  all_goals try (injection h)
  all_goals simp_all

/-- Any record an invocation's loop returns has `trivial = false`,
whatever the hooks and tasks do. -/
theorem loopRun_trivial_false {T V E : Type} (exec : T → List V → Except E V)
    (rwf : HookFn T V E (List V)) (bc sc : HookFn T V E Bool) (args : List V) :
    ∀ (fuel : Nat) (s : LoopState T V) (r : TaskRet V),
      loopRun exec rwf bc sc args fuel s = some (.ok r) → r.trivial = false := by
  intro fuel
  induction fuel with
  | zero => intro s r h; simp [loopRun] at h
  | succ n ih =>
    intro s r h
    rw [loopRun] at h
    cases hstep : loopStep exec rwf bc sc args s with
    | error e => rw [hstep] at h; simp at h
    | ok x =>
      cases x with
      | inr r2 =>
        rw [hstep] at h
        simp only [Option.some.injEq, Except.ok.injEq] at h
        subst h
        exact loopStep_inr_trivial exec rwf bc sc args s _ hstep
      | inl s2 =>
        rw [hstep] at h
        exact ih s2 r h

/-- C8: a task list empty at build time makes the produced callable of
either engine a constant function: whatever hooks the configuration
supplies, whatever the shared array holds at call time and whatever the
arguments are, it returns the trivial record, never touching the hooks. -/
theorem claim8_empty_fast_path {V E : Type} (undef : V) (nm : String)
    (bc sc : HookFn (STask V E) V E Bool) (rwf : HookFn (STask V E) V E (List V))
    (abc asc : AHookFn V E Bool) (arw : AHookFn V E (List V))
    (curS : List (STask V E)) (curA : List (ATask V E)) (args : List V) (fuel : Nat) :
    createSerialTask undef ⟨nm, [], bc, sc, rwf⟩ curS args fuel
        = some (.ok ⟨undef, [], true, -1, []⟩)
      ∧ createSerialTaskAsync undef ⟨nm, [], abc, asc, arw⟩ curA args fuel
        = some (.ok ⟨undef, [], true, -1, []⟩) :=
  ⟨rfl, rfl⟩

/-- C4 counterexample: the claim ties `trivial` to emptiness of the task
list at call time, but the engine decides the fast path from the
build-time list: a configuration built over the empty list keeps
returning `trivial = true` even though the shared array holds a task at
call time. -/
theorem claim4_counterexample :
    createSerialTask (V := Nat) (E := Unit) 0
        ⟨"kskbTask", [], DEFAULT_BREAKER, DEFAULT_SKIPPER, DEFAULT_RESULT_WRAPPER⟩
        [liftTotal (fun xs => xs.headD 0 + 1)] [5] 3
      = some (.ok ⟨0, [], true, -1, []⟩)
      ∧ ([liftTotal (fun xs => xs.headD 0 + 1)] : List (STask Nat Unit)) ≠ [] :=
  ⟨rfl, by simp⟩

/-- C4 amended: for every record either engine's produced callable
returns, `trivial` is true exactly when the task list was empty at build
time (when the shared array is not mutated between build and call this
coincides with call-time emptiness); in that case the record is the fixed
trivial one — `value` unset, `results` empty, `breakAt = -1`, `skipped`
empty — independent of the hooks, which are never invoked. -/
theorem claim4_trivial_build_time {V E : Type} (undef : V) (o : StrictOptions V E)
    (oa : AStrictOptions V E) (curS : List (STask V E)) (curA : List (ATask V E))
    (args : List V) (fuel : Nat) (r ra : TaskRet V)
    (hs : createSerialTask undef o curS args fuel = some (.ok r))
    (ha : createSerialTaskAsync undef oa curA args fuel = some (.ok ra)) :
    (r.trivial = true ↔ o.tasks = [])
      ∧ (o.tasks = [] → r = ⟨undef, [], true, -1, []⟩)
      ∧ (ra.trivial = true ↔ oa.tasks = [])
      ∧ (oa.tasks = [] → ra = ⟨undef, [], true, -1, []⟩) := by
  constructor
  · by_cases h : o.tasks = []
    · rw [createSerialTask, if_pos (by simp [h])] at hs
      simp only [Option.some.injEq, Except.ok.injEq] at hs
      subst hs
      simpa using h
    · rw [createSerialTask, if_neg (by simpa using h)] at hs
      have := loopRun_trivial_false (fun t xs => t xs) o.resultWrapper o.breakCondition
        o.skipCondition args fuel _ r hs
      simp [this, h]
  constructor
  · intro h
    rw [createSerialTask, if_pos (by simp [h])] at hs
    simp only [Option.some.injEq, Except.ok.injEq] at hs
    exact hs.symm
  constructor
  · by_cases h : oa.tasks = []
    · rw [createSerialTaskAsync, if_pos (by simp [h])] at ha
      simp only [Option.some.injEq, Except.ok.injEq] at ha
      subst ha
      simpa using h
    · rw [createSerialTaskAsync, if_neg (by simpa using h)] at ha
      have := loopRun_trivial_false (fun t xs => PromiseTrapply (t xs))
        (fun t i ts a l => PromiseTry (oa.resultWrapper t i ts a l))
        (fun t i ts a l => PromiseTry (oa.breakCondition t i ts a l))
        (fun t i ts a l => PromiseTry (oa.skipCondition t i ts a l)) args fuel _ ra ha
      simp [this, h]
  · intro h
    rw [createSerialTaskAsync, if_pos (by simp [h])] at ha
    simp only [Option.some.injEq, Except.ok.injEq] at ha
    exact ha.symm

/-- Witness for C4 as amended, at an empty-at-build configuration of each
engine. -/
theorem claim4_trivial_build_time_witness :
    (((⟨0, [], true, -1, []⟩ : TaskRet Nat).trivial = true)
        ↔ ([] : List (STask Nat Unit)) = [])
      ∧ (([] : List (STask Nat Unit)) = []
          → (⟨0, [], true, -1, []⟩ : TaskRet Nat) = ⟨0, [], true, -1, []⟩)
      ∧ (((⟨0, [], true, -1, []⟩ : TaskRet Nat).trivial = true)
          ↔ ([] : List (ATask Nat Unit)) = [])
      ∧ (([] : List (ATask Nat Unit)) = []
          → (⟨0, [], true, -1, []⟩ : TaskRet Nat) = ⟨0, [], true, -1, []⟩) :=
  claim4_trivial_build_time 0
    ⟨"kskbTask", [], DEFAULT_BREAKER, DEFAULT_SKIPPER, DEFAULT_RESULT_WRAPPER⟩
    ⟨"kskbTask", [], DEFAULT_BREAKER_ASYNC, DEFAULT_SKIPPER_ASYNC,
      DEFAULT_RESULT_WRAPPER_ASYNC⟩
    [] [] [] 1 ⟨0, [], true, -1, []⟩ ⟨0, [], true, -1, []⟩ rfl rfl

/-- C6: a failing task or hook aborts the loop and the failure reaches
the caller unmodified, with no record produced.  Four cases over the same
prefix of succeeding tasks: a synchronous-engine task that throws `e`; an
asynchronous-engine task that throws `e` synchronously; an
asynchronous-engine task that returns a thenable rejecting with `e` (the
two are settled identically by the `PromiseTry` channel); and a
synchronous-engine hook (`breakCondition`) that throws `e`. -/
theorem claim6_failure_propagation {V E : Type} (undef : V) (nm : String)
    (front : List (List V → V)) (e : E) (rest : List (STask V E))
    (arest : List (ATask V E)) (args : List V) (fuel : Nat)
    (hfuel : front.length + 2 ≤ fuel) :
    createSerialTask undef
        ⟨nm, front.map liftTotal ++ (fun _ => .error e) :: rest,
          DEFAULT_BREAKER, DEFAULT_SKIPPER, DEFAULT_RESULT_WRAPPER⟩
        (front.map liftTotal ++ (fun _ => .error e) :: rest) args fuel
      = some (.error e)
    ∧ createSerialTaskAsync undef
        ⟨nm, front.map liftTotalAsync ++ (fun _ => .error e) :: arest,
          DEFAULT_BREAKER_ASYNC, DEFAULT_SKIPPER_ASYNC, DEFAULT_RESULT_WRAPPER_ASYNC⟩
        (front.map liftTotalAsync ++ (fun _ => .error e) :: arest) args fuel
      = some (.error e)
    ∧ createSerialTaskAsync undef
        ⟨nm, front.map liftTotalAsync ++ (fun _ => .ok (.thenable (.error e))) :: arest,
          DEFAULT_BREAKER_ASYNC, DEFAULT_SKIPPER_ASYNC, DEFAULT_RESULT_WRAPPER_ASYNC⟩
        (front.map liftTotalAsync ++ (fun _ => .ok (.thenable (.error e))) :: arest)
        args fuel
      = some (.error e)
    ∧ createSerialTask undef
        ⟨nm, front.map liftTotal ++ (fun _ => .error e) :: rest,
          (fun _ i ts _ _ => if i = front.length then .error e else .ok (false, ts)),
          DEFAULT_SKIPPER, DEFAULT_RESULT_WRAPPER⟩
        (front.map liftTotal ++ (fun _ => .error e) :: rest) args fuel
      = some (.error e) := by
  refine ⟨?_, ?_, ?_, ?_⟩
  · rw [createSerialTask, if_neg (by simp)]
    simp only [List.length_append, List.length_map, List.length_cons]
    have hseg := loopRun_segment (fun (t : STask V E) xs => t xs) DEFAULT_RESULT_WRAPPER
      DEFAULT_BREAKER DEFAULT_SKIPPER args (front.map liftTotal) front
      (forall₂_liftTotal _) [] ((fun _ => .error e) :: rest) fuel undef
      (List.replicate (front.length + (rest.length + 1)) none) []
      (fun t m ts a l _ _ => default_rw_eq t m ts a l)
      (fun t m ts a l _ _ => default_bc_eq t m ts a l)
      (fun t m ts a l _ _ => default_sc_eq t m ts a l)
    simp only [List.nil_append, List.length_nil, Nat.zero_add, List.length_map] at hseg
    rw [hseg]
    obtain ⟨k, hk⟩ : ∃ k, fuel - front.length = k + 1 := ⟨fuel - front.length - 1, by omega⟩
    rw [hk, loopRun]
    have hguard := getElem?_append_mid (front.map (liftTotal (E := E)))
      (fun _ => (.error e : Except E V)) rest
    simp only [List.length_map] at hguard
    simp only [loopStep, hguard, default_rw_eq, default_bc_eq, default_sc_eq,
      Bool.false_eq_true, if_false]
  · rw [createSerialTaskAsync, if_neg (by simp)]
    simp only [List.length_append, List.length_map, List.length_cons]
    have hseg := loopRun_segment (fun (t : ATask V E) xs => PromiseTrapply (t xs))
      (fun t i ts a l => PromiseTry (DEFAULT_RESULT_WRAPPER_ASYNC t i ts a l))
      (fun t i ts a l => PromiseTry (DEFAULT_BREAKER_ASYNC t i ts a l))
      (fun t i ts a l => PromiseTry (DEFAULT_SKIPPER_ASYNC t i ts a l))
      args (front.map liftTotalAsync) front (forall₂_liftTotalAsync _) []
      ((fun _ => .error e) :: arest) fuel undef
      (List.replicate (front.length + (arest.length + 1)) none) []
      (fun _ _ _ _ _ _ _ => rfl) (fun _ _ _ _ _ _ _ => rfl) (fun _ _ _ _ _ _ _ => rfl)
    simp only [List.nil_append, List.length_nil, Nat.zero_add, List.length_map] at hseg
    rw [hseg]
    obtain ⟨k, hk⟩ : ∃ k, fuel - front.length = k + 1 := ⟨fuel - front.length - 1, by omega⟩
    rw [hk, loopRun]
    have hguard := getElem?_append_mid (front.map (liftTotalAsync (E := E)))
      (fun _ => (.error e : Except E (JSRes E V))) arest
    simp only [List.length_map] at hguard
    simp only [loopStep, hguard, Bool.false_eq_true, if_false,
      show ∀ (t : ATask V E) m ts (a : List V) (l : V),
        PromiseTry (DEFAULT_RESULT_WRAPPER_ASYNC t m ts a l) = .ok (wrapIn a m l, ts)
        from fun _ _ _ _ _ => rfl,
      show ∀ (t : ATask V E) m ts (a : List V) (l : V),
        PromiseTry (DEFAULT_BREAKER_ASYNC t m ts a l) = .ok (false, ts)
        from fun _ _ _ _ _ => rfl,
      show ∀ (t : ATask V E) m ts (a : List V) (l : V),
        PromiseTry (DEFAULT_SKIPPER_ASYNC t m ts a l) = .ok (false, ts)
        from fun _ _ _ _ _ => rfl]
    rfl
  · rw [createSerialTaskAsync, if_neg (by simp)]
    simp only [List.length_append, List.length_map, List.length_cons]
    have hseg := loopRun_segment (fun (t : ATask V E) xs => PromiseTrapply (t xs))
      (fun t i ts a l => PromiseTry (DEFAULT_RESULT_WRAPPER_ASYNC t i ts a l))
      (fun t i ts a l => PromiseTry (DEFAULT_BREAKER_ASYNC t i ts a l))
      (fun t i ts a l => PromiseTry (DEFAULT_SKIPPER_ASYNC t i ts a l))
      args (front.map liftTotalAsync) front (forall₂_liftTotalAsync _) []
      ((fun _ => .ok (.thenable (.error e))) :: arest) fuel undef
      (List.replicate (front.length + (arest.length + 1)) none) []
      (fun _ _ _ _ _ _ _ => rfl) (fun _ _ _ _ _ _ _ => rfl) (fun _ _ _ _ _ _ _ => rfl)
    simp only [List.nil_append, List.length_nil, Nat.zero_add, List.length_map] at hseg
    rw [hseg]
    obtain ⟨k, hk⟩ : ∃ k, fuel - front.length = k + 1 := ⟨fuel - front.length - 1, by omega⟩
    rw [hk, loopRun]
    have hguard := getElem?_append_mid (front.map (liftTotalAsync (E := E)))
      (fun _ => (.ok (.thenable (.error e)) : Except E (JSRes E V))) arest
    simp only [List.length_map] at hguard
    simp only [loopStep, hguard, Bool.false_eq_true, if_false,
      show ∀ (t : ATask V E) m ts (a : List V) (l : V),
        PromiseTry (DEFAULT_RESULT_WRAPPER_ASYNC t m ts a l) = .ok (wrapIn a m l, ts)
        from fun _ _ _ _ _ => rfl,
      show ∀ (t : ATask V E) m ts (a : List V) (l : V),
        PromiseTry (DEFAULT_BREAKER_ASYNC t m ts a l) = .ok (false, ts)
        from fun _ _ _ _ _ => rfl,
      show ∀ (t : ATask V E) m ts (a : List V) (l : V),
        PromiseTry (DEFAULT_SKIPPER_ASYNC t m ts a l) = .ok (false, ts)
        from fun _ _ _ _ _ => rfl]
    rfl
  · rw [createSerialTask, if_neg (by simp)]
    simp only [List.length_append, List.length_map, List.length_cons]
    have hseg := loopRun_segment (fun (t : STask V E) xs => t xs) DEFAULT_RESULT_WRAPPER
      (fun _ i ts _ _ => if i = front.length then .error e else .ok (false, ts))
      DEFAULT_SKIPPER args (front.map liftTotal) front
      (forall₂_liftTotal _) [] ((fun _ => .error e) :: rest) fuel undef
      (List.replicate (front.length + (rest.length + 1)) none) []
      (fun t m ts a l _ _ => default_rw_eq t m ts a l)
      (by
        intro t m ts a l _ hm2
        simp only [List.length_nil, Nat.zero_add, List.length_map] at hm2
        have hne : m ≠ front.length := by omega
        simp [hne])
      (fun t m ts a l _ _ => default_sc_eq t m ts a l)
    simp only [List.nil_append, List.length_nil, Nat.zero_add, List.length_map] at hseg
    rw [hseg]
    obtain ⟨k, hk⟩ : ∃ k, fuel - front.length = k + 1 := ⟨fuel - front.length - 1, by omega⟩
    rw [hk, loopRun]
    have hguard := getElem?_append_mid (front.map (liftTotal (E := E)))
      (fun _ => (.error e : Except E V)) rest
    simp only [List.length_map] at hguard
    simp only [loopStep, hguard, default_rw_eq, if_pos]

/-- Witness for C6: one succeeding task, then a task whose failure `37`
escapes the synchronous engine unchanged. -/
theorem claim6_failure_propagation_witness :
    createSerialTask (V := Nat) (E := Nat) 0
        ⟨"kskbTask",
          ([fun xs => xs.headD 0 + 1] : List (List Nat → Nat)).map liftTotal
            ++ (fun _ => .error 37) :: [],
          DEFAULT_BREAKER, DEFAULT_SKIPPER, DEFAULT_RESULT_WRAPPER⟩
        (([fun xs => xs.headD 0 + 1] : List (List Nat → Nat)).map liftTotal
            ++ (fun _ => .error 37) :: []) [5] 3
      = some (.error 37) :=
  (claim6_failure_propagation 0 "kskbTask" [fun xs => xs.headD 0 + 1] 37 [] [] [5] 3
    (by simp)).1

/-- Settling the lift of a synchronous task recovers the task. -/
theorem unlift_lift {V E : Type} (t : STask V E) : unliftTask (liftTask t) = t := by
  funext xs
  unfold unliftTask liftTask
  cases t xs <;> rfl

theorem map_unlift_lift {V E : Type} (ts : List (STask V E)) :
    (ts.map liftTask).map unliftTask = ts := by
  rw [List.map_map]
  have h : unliftTask ∘ liftTask (V := V) (E := E) = id := funext unlift_lift
  rw [h, List.map_id]

theorem liftTask_settle {V E : Type} (st : STask V E) (xs : List V) :
    PromiseTrapply (liftTask st xs) = st xs := by
  unfold liftTask
  cases st xs <;> rfl

/-- Settling a lifted hook call over a lifted task array behaves exactly
as the synchronous hook, up to lifting the task array it hands back. -/
theorem liftHook_settle {V E β : Type} (h : HookFn (STask V E) V E β) (st : STask V E)
    (i : Nat) (sts : List (STask V E)) (a : List V) (l : V) :
    PromiseTry (liftHook h (liftTask st) i (sts.map liftTask) a l)
      = (h st i sts a l).map (fun p => (p.1, p.2.map liftTask)) := by
  unfold liftHook
  rw [unlift_lift, map_unlift_lift]
  cases h st i sts a l <;> rfl

/-- One loop iteration of the asynchronous engine over a lifted purely
synchronous configuration mirrors the synchronous iteration, the task
array staying the lift of the synchronous one. -/
theorem loopStep_lift_eq {V E : Type} (rwf : HookFn (STask V E) V E (List V))
    (bc sc : HookFn (STask V E) V E Bool) (args : List V)
    (i : Nat) (sts : List (STask V E)) (lst : V) (rs : List (Option V)) (sk : List Nat) :
    loopStep (fun (t : ATask V E) xs => PromiseTrapply (t xs))
        (fun t i2 ts a l => PromiseTry (liftHook rwf t i2 ts a l))
        (fun t i2 ts a l => PromiseTry (liftHook bc t i2 ts a l))
        (fun t i2 ts a l => PromiseTry (liftHook sc t i2 ts a l))
        args ⟨i, sts.map liftTask, lst, rs, sk⟩
      = (loopStep (fun (t : STask V E) xs => t xs) rwf bc sc args ⟨i, sts, lst, rs, sk⟩).map
          (Sum.map
            (fun s2 => ⟨s2.i, s2.tasks.map liftTask, s2.last, s2.results, s2.skipped⟩) id) := by
  unfold loopStep
  simp only
  rw [show (sts.map (liftTask (V := V) (E := E)))[i]? = (sts[i]?).map liftTask from by
    simp [List.getElem?_map]]
  cases hsi : sts[i]? with
  | none => rfl
  | some st =>
    simp only [Option.map_some']
    rw [liftHook_settle]
    cases h1 : rwf st i sts args lst with
    | error e => rfl
    | ok p =>
      obtain ⟨input, ts1⟩ := p
      simp only [Except.map]
      rw [liftHook_settle]
      cases h2 : bc st i ts1 args lst with
      | error e => rfl
      | ok q =>
        obtain ⟨tb, ts2⟩ := q
        simp only [Except.map]
        cases tb with
        | true => rfl
        | false =>
          simp only [Bool.false_eq_true, if_false]
          rw [liftHook_settle]
          cases h3 : sc st i ts2 args lst with
          | error e => rfl
          | ok w =>
            obtain ⟨tsk, ts3⟩ := w
            simp only [Except.map]
            cases tsk with
            | true => rfl
            | false =>
              simp only [Bool.false_eq_true, if_false]
              rw [liftTask_settle]
              cases h4 : st input <;> rfl

/-- The whole loop of the asynchronous engine over a lifted purely
synchronous configuration returns exactly what the synchronous loop
returns. -/
theorem loopRun_lift_eq {V E : Type} (rwf : HookFn (STask V E) V E (List V))
    (bc sc : HookFn (STask V E) V E Bool) (args : List V) :
    ∀ (fuel : Nat) (i : Nat) (sts : List (STask V E)) (lst : V)
      (rs : List (Option V)) (sk : List Nat),
      loopRun (fun (t : ATask V E) xs => PromiseTrapply (t xs))
          (fun t i2 ts a l => PromiseTry (liftHook rwf t i2 ts a l))
          (fun t i2 ts a l => PromiseTry (liftHook bc t i2 ts a l))
          (fun t i2 ts a l => PromiseTry (liftHook sc t i2 ts a l))
          args fuel ⟨i, sts.map liftTask, lst, rs, sk⟩
        = loopRun (fun (t : STask V E) xs => t xs) rwf bc sc args fuel
            ⟨i, sts, lst, rs, sk⟩ := by
  intro fuel
  induction fuel with
  | zero => intro i sts lst rs sk; rfl
  | succ n ih =>
    intro i sts lst rs sk
    rw [loopRun, loopRun, loopStep_lift_eq]
    cases hstep : loopStep (fun (t : STask V E) xs => t xs) rwf bc sc args
        ⟨i, sts, lst, rs, sk⟩ with
    | error e => rfl
    | ok x =>
      cases x with
      | inr r => rfl
      | inl s2 =>
        simp only [Except.map, Sum.map]
        exact ih s2.i s2.tasks s2.last s2.results s2.skipped

/-- C7: on a configuration whose tasks and hooks are plain synchronous
functions (lifted into the asynchronous call channel, so they never
return thenables), the settled outcome of the asynchronous engine's
callable is exactly the record of the synchronous engine's callable from
the same configuration, for every call-time task array, argument list and
fuel. -/
theorem claim7_async_refines_sync {V E : Type} (undef : V) (o : StrictOptions V E)
    (cur : List (STask V E)) (args : List V) (fuel : Nat) :
    createSerialTaskAsync undef (liftOptions o) (cur.map liftTask) args fuel
      = createSerialTask undef o cur args fuel := by
  unfold createSerialTaskAsync createSerialTask liftOptions
  simp only [List.length_map]
  by_cases h : o.tasks.length = 0
  · rw [if_pos h, if_pos h]
  · rw [if_neg h, if_neg h]
    exact loopRun_lift_eq o.resultWrapper o.breakCondition o.skipCondition args fuel 0 cur
      undef (List.replicate cur.length none) []

theorem reduceOption_map_some {α : Type} (l : List α) : (l.map some).reduceOption = l := by
  induction l with
  | nil => rfl
  | cons a t ih => simp [List.reduceOption, ih]

theorem all_isSome_map_some {α : Type} (l : List α) :
    (l.map some).all Option.isSome = true := by
  simp [List.all_eq_true]

/-- C9: the normalizer fails exactly on the invalid inputs the
specification enumerates (not a non-null object; `name` present but not a
string; `tasks` not an array of functions; a hook present but not a
function); on success it returns the configuration with `name` defaulted
to the fixed constant, both conditions defaulted to the one shared
always-false predicate, and the result wrapper defaulted to the
index-0-returns-args, otherwise-wrap-last rule. -/
theorem claim9_normalize_contract {V E : Type} :
    (∀ r : RawInput V E, (∃ msg, normalize r = .error msg) ↔ invalidRaw r)
      ∧ (∀ (nm : String) (ts : List (STask V E)) (bc sc : HookFn (STask V E) V E Bool)
          (rwf : HookFn (STask V E) V E (List V)),
          normalize (.obj ⟨.val nm, .val (ts.map some), .val bc, .val sc, .val rwf⟩)
            = .ok ⟨nm, ts, bc, sc, rwf⟩)
      ∧ (∀ ts : List (STask V E),
          normalize (.obj ⟨.undef, .val (ts.map some), .undef, .undef, .undef⟩)
            = .ok ⟨"kskbTask", ts, DEFAULT_BREAKER, DEFAULT_SKIPPER,
                DEFAULT_RESULT_WRAPPER⟩)
      ∧ DEFAULT_SKIPPER (T := STask V E) (V := V) (E := E) = DEFAULT_BREAKER := by
  refine ⟨?_, ?_, ?_, rfl⟩
  · intro r
    cases r with
    | notObject => simp [normalize, invalidRaw]
    | obj o =>
      obtain ⟨n, t, b, s, w⟩ := o
      cases t with
      | undef =>
        cases n <;> cases b <;> cases s <;> cases w <;>
          simp [normalize, invalidRaw, withDefault, tasksValid]
      | bad =>
        cases n <;> cases b <;> cases s <;> cases w <;>
          simp [normalize, invalidRaw, withDefault, tasksValid]
      | val l =>
        by_cases hall : l.all Option.isSome = true
        · cases n <;> cases b <;> cases s <;> cases w <;>
            simp [normalize, invalidRaw, withDefault, tasksValid, hall]
        · cases n <;> cases b <;> cases s <;> cases w <;>
            simp [normalize, invalidRaw, withDefault, tasksValid, hall]
  · intro nm ts bc sc rwf
    simp [normalize, withDefault, all_isSome_map_some, reduceOption_map_some]
  · intro ts
    simp [normalize, withDefault, all_isSome_map_some, reduceOption_map_some]

/-- Witness for C9: a one-task configuration with every optional field
omitted normalizes to the defaulted strict configuration. -/
theorem claim9_normalize_contract_witness :
    normalize (V := Nat) (E := Unit)
        (.obj ⟨.undef, .val ([liftTotal (fun xs => xs.headD 0 + 1)].map some),
          .undef, .undef, .undef⟩)
      = .ok ⟨"kskbTask", [liftTotal (fun xs => xs.headD 0 + 1)], DEFAULT_BREAKER,
          DEFAULT_SKIPPER, DEFAULT_RESULT_WRAPPER⟩ :=
  claim9_normalize_contract.2.2.1 [liftTotal (fun xs => xs.headD 0 + 1)]

theorem slotUnset_replicate {V : Type} (n j : Nat) :
    slotUnset (List.replicate n (none : Option V)) j := by
  unfold slotUnset
  rw [List.getElem?_replicate]
  split <;> rfl

theorem slotUnset_setSlot_ne {V : Type} (rs : List (Option V)) (i j : Nat) (v : V)
    (hne : j ≠ i) (h : slotUnset rs j) : slotUnset (setSlot rs i v) j := by
  unfold slotUnset at h ⊢
  unfold setSlot
  split
  case isTrue hlt =>
    rw [List.getElem?_set_ne (by omega)]
    exact h
  case isFalse hge =>
    rw [List.getElem?_append]
    split
    case isTrue hj =>
      rw [List.getElem?_append]
      split
      case isTrue hj2 => exact h
      case isFalse hj2 =>
        rw [List.getElem?_replicate]
        split <;> rfl
    case isFalse hj =>
      rw [List.getElem?_eq_none]
      · rfl
      · simp only [List.length_append, List.length_replicate, List.length_cons,
          List.length_nil, Nat.not_lt] at hj ⊢
        omega

/-- One loop iteration preserves the state invariant, and any record it
emits satisfies the record invariant — for arbitrary hooks and tasks. -/
theorem loopStep_inv {T V E : Type} (exec : T → List V → Except E V)
    (rwf : HookFn T V E (List V)) (bc sc : HookFn T V E Bool) (args : List V)
    (s : LoopState T V) (hs : StateInv s) :
    (∀ s2, loopStep exec rwf bc sc args s = .ok (.inl s2) → StateInv s2)
      ∧ (∀ r, loopStep exec rwf bc sc args s = .ok (.inr r) → RetInv r) := by
  obtain ⟨hp, hb, hu, ht⟩ := hs
  have hskip : List.Pairwise (· < ·) (s.skipped ++ [s.i])
      ∧ (∀ m ∈ s.skipped ++ [s.i], m < s.i + 1)
      ∧ (∀ m ∈ s.skipped ++ [s.i], slotUnset s.results m)
      ∧ (∀ j, s.i + 1 ≤ j → slotUnset s.results j) := by
    refine ⟨?_, ?_, ?_, ?_⟩
    · refine List.pairwise_append.mpr ⟨hp, List.pairwise_singleton _ _, ?_⟩
      intro a ha b hbb
      simp only [List.mem_singleton] at hbb
      subst hbb
      exact hb a ha
    · intro m hm
      rcases List.mem_append.mp hm with hm1 | hm2
      · exact Nat.lt_succ_of_lt (hb m hm1)
      · simp only [List.mem_singleton] at hm2
        omega
    · intro m hm
      rcases List.mem_append.mp hm with hm1 | hm2
      · exact hu m hm1
      · simp only [List.mem_singleton] at hm2
        subst hm2
        exact ht s.i (Nat.le_refl _)
    · intro j hj
      exact ht j (by omega)
  have hwrite : ∀ v : V, List.Pairwise (· < ·) s.skipped
      ∧ (∀ m ∈ s.skipped, m < s.i + 1)
      ∧ (∀ m ∈ s.skipped, slotUnset (setSlot s.results s.i v) m)
      ∧ (∀ j, s.i + 1 ≤ j → slotUnset (setSlot s.results s.i v) j) := by
    intro v
    refine ⟨hp, ?_, ?_, ?_⟩
    · intro m hm
      exact Nat.lt_succ_of_lt (hb m hm)
    · intro m hm
      exact slotUnset_setSlot_ne _ _ _ _ (by have := hb m hm; omega) (hu m hm)
    · intro j hj
      exact slotUnset_setSlot_ne _ _ _ _ (by omega) (ht j (by omega))
  have hdone : List.Pairwise (· < ·) s.skipped
      ∧ (∀ m ∈ s.skipped, slotUnset s.results m)
      ∧ ((0 : Int) ≤ -1 →
          (∀ m ∈ s.skipped, (m : Int) < -1)
            ∧ (∀ j : Nat, j < s.results.length → (-1 : Int) ≤ (j : Int)
                → s.results[j]? = some none)) :=
    ⟨hp, hu, fun h0 => absurd h0 (by norm_num)⟩
  have hbrk : List.Pairwise (· < ·) s.skipped
      ∧ (∀ m ∈ s.skipped, slotUnset s.results m)
      ∧ ((0 : Int) ≤ (s.i : Int) →
          (∀ m ∈ s.skipped, (m : Int) < (s.i : Int))
            ∧ (∀ j : Nat, j < s.results.length → (s.i : Int) ≤ (j : Int)
                → s.results[j]? = some none)) := by
    refine ⟨hp, hu, fun _ => ⟨?_, ?_⟩⟩
    · intro m hm
      exact_mod_cast hb m hm
    · intro j hj hij
      have hij2 : s.i ≤ j := by exact_mod_cast hij
      have hu2 := ht j hij2
      unfold slotUnset at hu2
      rw [List.getElem?_eq_getElem hj] at hu2 ⊢
      simp only [Option.getD_some] at hu2
      rw [hu2]
  constructor
  all_goals intro out h
  all_goals unfold loopStep at h
  all_goals cases hg : s.tasks[s.i]? with
    | none =>
      simp only [hg] at h
      first
        | (simp only [Except.ok.injEq, Sum.inr.injEq] at h; subst h; exact hdone)
        | simp at h
    | some task =>
      simp only [hg] at h
      cases hrw : rwf task s.i s.tasks args s.last with
      | error e => simp [hrw] at h
      | ok p =>
        obtain ⟨input, ts1⟩ := p
        simp only [hrw] at h
        cases hbc : bc task s.i ts1 args s.last with
        | error e => simp [hbc] at h
        | ok q =>
          obtain ⟨tb, ts2⟩ := q
          cases tb with
          | true =>
            first
              | (simp only [hbc, eq_self_iff_true, if_true, Except.ok.injEq,
                  Sum.inr.injEq] at h; subst h; exact hbrk)
              | simp [hbc] at h
          | false =>
            simp only [hbc, Bool.false_eq_true, if_false] at h
            cases hsc : sc task s.i ts2 args s.last with
            | error e => simp [hsc] at h
            | ok w =>
              obtain ⟨tsk, ts3⟩ := w
              cases tsk with
              | true =>
                first
                  | (simp only [hsc, eq_self_iff_true, if_true, Except.ok.injEq,
                      Sum.inl.injEq] at h; subst h; exact hskip)
                  | simp [hsc] at h
              | false =>
                simp only [hsc, Bool.false_eq_true, if_false] at h
                cases hex : exec task input with
                | error e => simp [hex] at h
                | ok v =>
                  first
                    | (simp only [hex, Except.ok.injEq, Sum.inl.injEq] at h; subst h;
                        exact hwrite v)
                    | simp [hex] at h

/-- The loop preserves `StateInv` through to any record it returns. -/
theorem loopRun_inv {T V E : Type} (exec : T → List V → Except E V)
    (rwf : HookFn T V E (List V)) (bc sc : HookFn T V E Bool) (args : List V) :
    ∀ (fuel : Nat) (s : LoopState T V) (r : TaskRet V), StateInv s →
      loopRun exec rwf bc sc args fuel s = some (.ok r) → RetInv r := by
  intro fuel
  induction fuel with
  | zero => intro s r _ h; simp [loopRun] at h
  | succ n ih =>
    intro s r hs h
    rw [loopRun] at h
    cases hstep : loopStep exec rwf bc sc args s with
    | error e => rw [hstep] at h; simp at h
    | ok x =>
      cases x with
      | inr r2 =>
        rw [hstep] at h
        simp only [Option.some.injEq, Except.ok.injEq] at h
        subst h
        exact (loopStep_inv exec rwf bc sc args s hs).2 _ hstep
      | inl s2 =>
        rw [hstep] at h
        exact ih s2 r ((loopStep_inv exec rwf bc sc args s hs).1 s2 hstep) h

/-- C10: every non-trivial record either engine's callable produces —
whatever the hooks do, mutation and failure included — has a strictly
increasing `skipped`, holes at every skipped slot of `results`, and, when
`breakAt ≥ 0`, `breakAt` above every skipped index with every slot from
`breakAt` on unset. -/
theorem claim10_record_invariants :
    (∀ (V E : Type) (undef : V) (o : StrictOptions V E) (cur : List (STask V E))
        (args : List V) (fuel : Nat) (r : TaskRet V),
        createSerialTask undef o cur args fuel = some (.ok r) → r.trivial = false
          → RetInv r)
      ∧ (∀ (V E : Type) (undef : V) (oa : AStrictOptions V E) (cur : List (ATask V E))
          (args : List V) (fuel : Nat) (r : TaskRet V),
          createSerialTaskAsync undef oa cur args fuel = some (.ok r) → r.trivial = false
            → RetInv r) := by
  constructor
  · intro V E undef o cur args fuel r h htriv
    rw [createSerialTask] at h
    split at h
    · simp only [Option.some.injEq, Except.ok.injEq] at h
      subst h
      simp at htriv
    · exact loopRun_inv _ _ _ _ args fuel _ r
        ⟨List.Pairwise.nil, by simp, by simp, fun j _ => slotUnset_replicate _ j⟩ h
  · intro V E undef oa cur args fuel r h htriv
    rw [createSerialTaskAsync] at h
    split at h
    · simp only [Option.some.injEq, Except.ok.injEq] at h
      subst h
      simp at htriv
    · exact loopRun_inv _ _ _ _ args fuel _ r
        ⟨List.Pairwise.nil, by simp, by simp, fun j _ => slotUnset_replicate _ j⟩ h

/-- Witness for C10 at a run that both skips (index 0) and breaks
(index 2): the record `⟨1, [none, some 1, none], false, 2, [0]⟩`. -/
theorem claim10_record_invariants_witness :
    RetInv (⟨1, [none, some 1, none], false, 2, [0]⟩ : TaskRet Nat) :=
  claim10_record_invariants.1 Nat Unit 0
    ⟨"kskbTask",
      [liftTotal (fun xs => xs.headD 0 + 1), liftTotal (fun xs => xs.headD 0 + 1),
        liftTotal (fun xs => xs.headD 0 + 1)],
      (fun _ i ts _ _ => .ok (decide (i = 2), ts)),
      (fun _ i ts _ _ => .ok (decide (i = 0), ts)), DEFAULT_RESULT_WRAPPER⟩
    [liftTotal (fun xs => xs.headD 0 + 1), liftTotal (fun xs => xs.headD 0 + 1),
      liftTotal (fun xs => xs.headD 0 + 1)]
    [0] 4 ⟨1, [none, some 1, none], false, 2, [0]⟩ rfl rfl

end SerialTask
